import Mathlib

/-!
Verification development for the AI-legislation tracking pipeline in
scripts/fetch_legislation.py.  The Python source is shallowly embedded:
Python strings become Lean String values, Python dicts of the upstream
JSON are flattened to structures carrying exactly the fields the script
reads, the insertion-ordered dicts used for aggregation become
association lists, and Python list.sort (a stable sort) becomes a stable
insertion sort parameterised by the same key order.
-/

/-- Model of the Python substring operator, as in the expression
term in text: true iff pat occurs contiguously inside text.
The empty pattern matches everywhere, as in Python. -/
def strContains (text pat : String) : Bool :=
  (text.toList.tails).any (fun suf => pat.toList.isPrefixOf suf)

/-- Model of Python str.lower, character by character (faithful on the
ASCII texts this pipeline handles). -/
def pyLower (s : String) : String :=
  String.mk (s.toList.map Char.toLower)

/-- Model of the Python idiom any(term in text for term in terms). -/
def containsAny (text : String) (terms : List String) : Bool :=
  terms.any (fun t => strContains text t)

/-- The inclusion keyword list ai_terms of is_ai_related
(fetch_legislation.py lines 96-103). -/
def ai_terms : List String :=
  ["artificial intelligence", "ai system", "ai technology", "ai model",
   "machine learning", "deep learning", "neural network",
   "automated decision", "algorithmic decision", "algorithm bias",
   "chatbot", "bot disclosure", "conversational ai",
   "deepfake", "synthetic media", "computer-generated",
   "generative ai", "large language model", "llm"]

/-- The exclusion keyword list exclude_terms of is_ai_related
(fetch_legislation.py lines 110-114). -/
def exclude_terms : List String :=
  ["agriculture", "farming", "crop", "livestock", "farm bill",
   "american indian", "tribal", "native american",
   "air quality", "aviation", "aircraft"]

/-- Embedding of is_ai_related (fetch_legislation.py lines 91-119):
lower-case title plus a space plus abstract; reject unless some
inclusion term occurs; then reject if any exclusion term occurs. -/
def is_ai_related (title : String) (abstract : String) : Bool :=
  let text := pyLower (title ++ " " ++ abstract)
  if !(containsAny text ai_terms) then false
  else if containsAny text exclude_terms then false
  else true

/-- The relevance rule as the specification words it (spec section 4.3):
accept iff at least one inclusion keyword is a substring AND no
exclusion keyword is a substring of the lower-cased text.  Written
from the spec, to be compared with is_ai_related. -/
def isRelevantSpec (title : String) (abstract : String) : Bool :=
  let text := pyLower (title ++ " " ++ abstract)
  containsAny text ai_terms && !(containsAny text exclude_terms)

/-- Embedding of categorize_bill (fetch_legislation.py lines 121-153):
twelve independent keyword checks over the lower-cased title+abstract
text, collecting labels in source order; the joined labels, or the
sentinel General AI when none matched. -/
def categorize_bill (title : String) (abstract : String) : String :=
  let text := pyLower (title ++ " " ++ abstract)
  let categories :=
    (if containsAny text ["healthcare", "medical", "health care", "patient", "clinical"]
      then ["Healthcare"] else []) ++
    (if containsAny text ["employment", "hiring", "workplace", "job", "worker", "employee"]
      then ["Employment"] else []) ++
    (if containsAny text ["election", "voting", "campaign", "political", "deepfake"]
      then ["Elections"] else []) ++
    (if containsAny text ["privacy", "data protection", "personal information", "consumer data"]
      then ["Privacy"] else []) ++
    (if containsAny text ["transparency", "disclosure", "watermark", "explainable"]
      then ["Transparency"] else []) ++
    (if containsAny text ["government", "agency", "public sector", "state use"]
      then ["Government Use"] else []) ++
    (if containsAny text ["chatbot", "bot disclosure", "conversational"]
      then ["Chatbots"] else []) ++
    (if containsAny text ["child", "minor", "exploitation", "student", "education"]
      then ["Child Protection/Education"] else []) ++
    (if containsAny text ["financial", "banking", "credit", "lending", "insurance"]
      then ["Financial Services"] else []) ++
    (if containsAny text ["criminal justice", "law enforcement", "policing", "surveillance"]
      then ["Criminal Justice"] else []) ++
    (if containsAny text ["bias", "discrimination", "fairness", "civil rights"]
      then ["Bias/Discrimination"] else []) ++
    (if containsAny text ["liability", "safety", "risk", "harm"]
      then ["Safety/Liability"] else [])
  if categories.isEmpty then "General AI" else String.intercalate "; " categories

/-- Embedding of get_bill_status_category (fetch_legislation.py lines
155-173).  An action is represented by its description string (the
script reads only actions[0].get with key description, default empty);
empty action list gives Introduced, otherwise the lower-cased first
description is tested against the keyword chain in source order with
Active as the fallback. -/
def get_bill_status_category (actions : List String) : String :=
  match actions with
  | [] => "Introduced"
  | d :: _ =>
    let latest_action := pyLower d
    if containsAny latest_action ["signed", "enacted", "effective", "law"] then "Enacted"
    else if containsAny latest_action ["passed", "approved"] then "Passed"
    else if containsAny latest_action ["committee", "referred"] then "In Committee"
    else if containsAny latest_action ["failed", "defeated", "withdrawn"] then "Failed/Withdrawn"
    else if containsAny latest_action ["vetoed"] then "Vetoed"
    else "Active"

/-- The status keyword table in the priority order the specification
states (spec section 4.4): Enacted, Passed, In Committee,
Failed/Withdrawn, Vetoed.  Written from the spec for comparison. -/
def statusTable : List (String × List String) :=
  [("Enacted", ["signed", "enacted", "effective", "law"]),
   ("Passed", ["passed", "approved"]),
   ("In Committee", ["committee", "referred"]),
   ("Failed/Withdrawn", ["failed", "defeated", "withdrawn"]),
   ("Vetoed", ["vetoed"])]

/-- First label of the table whose keyword set matches the text;
Active when none matches.  Written from the spec. -/
def firstMatchingStatus (text : String) : List (String × List String) → String
  | [] => "Active"
  | (label, kws) :: rest =>
    if containsAny text kws then label else firstMatchingStatus text rest

/-- Status of a non-empty action list as the spec words it: the first
match in priority order over the lower-cased latest description. -/
def statusSpec (description : String) : String :=
  firstMatchingStatus (pyLower description) statusTable

/-- Value of a fixed-width decimal numeral given as characters. -/
def digitsToNat (cs : List Char) : Nat :=
  cs.foldl (fun n c => n * 10 + (c.toNat - 48)) 0

/-- Read exactly two decimal digits, returning their value and the
remaining characters. -/
def parseTwoDigits : List Char → Option (Nat × List Char)
  | a :: b :: rest =>
    if a.isDigit && b.isDigit then
      some ((a.toNat - 48) * 10 + (b.toNat - 48), rest)
    else none
  | _ => none

/-- A valid trailing UTC-offset suffix: nothing, or a sign followed by
HH:MM with HH at most 23 and MM at most 59. -/
def validOffset : List Char → Bool
  | [] => true
  | sign :: rest =>
    (sign == '+' || sign == '-') &&
    (match parseTwoDigits rest with
     | some (oh, r2) =>
       (match r2 with
        | ':' :: r3 =>
          (match parseTwoDigits r3 with
           | some (om, r4) => decide (oh ≤ 23) && decide (om ≤ 59) && r4.isEmpty
           | none => false)
        | _ => false)
     | none => false)

/-- A valid fractional-seconds part (a dot and one to six digits) or
none, followed by a valid offset. -/
def validFracOffset (cs : List Char) : Bool :=
  match cs with
  | '.' :: r =>
    let ds := r.takeWhile Char.isDigit
    decide (1 ≤ ds.length) && decide (ds.length ≤ 6) && validOffset (r.drop ds.length)
  | _ => validOffset cs

/-- A valid ISO-8601 time part HH, HH:MM or HH:MM:SS with optional
fractional seconds, followed by an optional offset. -/
def validTime (cs : List Char) : Bool :=
  match parseTwoDigits cs with
  | none => false
  | some (hh, r1) =>
    decide (hh ≤ 23) &&
    (match r1 with
     | [] => true
     | ':' :: r2 =>
       (match parseTwoDigits r2 with
        | none => false
        | some (mm, r3) =>
          decide (mm ≤ 59) &&
          (match r3 with
           | [] => true
           | ':' :: r4 =>
             (match parseTwoDigits r4 with
              | none => false
              | some (ss, r5) => decide (ss ≤ 59) && validFracOffset r5)
           | _ => validOffset r3))
     | _ => validOffset r1)

/-- Gregorian leap-year rule, as validated by the Python date type. -/
def isLeapYear (y : Nat) : Bool :=
  (y % 4 == 0 && y % 100 != 0) || y % 400 == 0

/-- Days in a month, as validated by the Python date type. -/
def daysInMonth (y m : Nat) : Nat :=
  if m == 2 then (if isLeapYear y then 29 else 28)
  else if m == 4 || m == 6 || m == 9 || m == 11 then 30
  else 31

/-- Model of the library call datetime.fromisoformat(s).year used at
fetch_legislation.py line 218: succeeds exactly on strings of the form
YYYY-MM-DD, optionally followed by a one-character separator and a
valid time part with optional fractional seconds and optional
signed HH:MM offset, with calendar-valid year, month and day; on
success the four year digits give the result.  The script replaces
every Z by +00:00 before calling it, so the model needs no Z branch. -/
def fromisoformatYear (s : String) : Option Nat :=
  match s.toList with
  | y1 :: y2 :: y3 :: y4 :: '-' :: m1 :: m2 :: '-' :: d1 :: d2 :: rest =>
    if ([y1, y2, y3, y4, m1, m2, d1, d2].all Char.isDigit) then
      let y := digitsToNat [y1, y2, y3, y4]
      let m := digitsToNat [m1, m2]
      let d := digitsToNat [d1, d2]
      if decide (1 ≤ y) && decide (1 ≤ m) && decide (m ≤ 12) &&
         decide (1 ≤ d) && decide (d ≤ daysInMonth y m) then
        match rest with
        | [] => some y
        | _ :: timecs => if validTime timecs then some y else none
      else none
    else none
  | _ => none

/-- Model of the Python expression created_at.replace(Z, +00:00):
every occurrence of the character Z is replaced by the five
characters +00:00. -/
def replaceZ (s : String) : String :=
  String.mk ((s.toList.map
    (fun c => if c == 'Z' then ['+', '0', '0', ':', '0', '0'] else [c])).flatten)

/-- Embedding of the year extraction at fetch_legislation.py lines
215-220: year starts absent; when the timestamp string is non-empty the
script tries the ISO parse of the Z-replaced string, and on any parse
failure the bare except leaves the year absent.  none models the
falsy empty string rendered as Unknown downstream. -/
def extractYear (created_at : String) : Option Nat :=
  if created_at == "" then none
  else fromisoformatYear (replaceZ created_at)

/-- A raw bill as the script reads it from the upstream JSON
(spec section 6): nested one-field dicts are flattened to the field the
script consumes — jurisdiction to its name, each abstracts item to its
abstract text, each action to its description, each source to its url;
a missing key read through dict.get with an empty-string default is the
empty string. -/
structure RawBill where
  jurisdiction : String
  identifier : String
  title : String
  abstracts : List String
  actions : List String
  session : String
  created_at : String
  updated_at : String
  sources : List String
deriving DecidableEq

/-- The deduplication key built at fetch_legislation.py line 192: the
jurisdiction name and the identifier joined by an underscore in one
string. -/
def billKey (b : RawBill) : String :=
  b.jurisdiction ++ "_" ++ b.identifier

/-- The seen-set loop of fetch_legislation.py lines 190-195, with the
Python set of key strings modelled as a list: a bill whose key was
already seen is skipped, otherwise it is kept and its key recorded. -/
def dedupAux : List RawBill → List String → List RawBill
  | [], _ => []
  | b :: rest, seen =>
    if seen.contains (billKey b) then dedupAux rest seen
    else b :: dedupAux rest (billKey b :: seen)

/-- The Deduplicator stage: the seen-set loop started with no keys
seen. -/
def dedup (xs : List RawBill) : List RawBill := dedupAux xs []

/-- First-occurrence-wins deduplication as the spec words it: keep the
head and drop every later record with the same key. -/
def specFirstWins : List RawBill → List RawBill
  | [] => []
  | b :: rest =>
    b :: specFirstWins (rest.filter (fun y => !(decide (billKey y = billKey b))))
termination_by xs => xs.length
decreasing_by
  simp only [List.length_cons]
  exact Nat.lt_succ_of_le (List.length_filter_le _ _)

/-- Two raw records whose (jurisdiction, identifier) pairs differ but
whose underscore-joined key strings coincide. -/
def colBillA : RawBill :=
  { jurisdiction := "Texas_HB", identifier := "7", title := "first",
    abstracts := [], actions := [], session := "", created_at := "",
    updated_at := "", sources := [] }

/-- Companion record of colBillA with the same joined key. -/
def colBillB : RawBill :=
  { jurisdiction := "Texas", identifier := "HB_7", title := "second",
    abstracts := [], actions := [], session := "", created_at := "",
    updated_at := "", sources := [] }

/-- Embedding of the abstract truncation at fetch_legislation.py line
234: an abstract longer than 500 characters is cut to its first 500
characters and suffixed with three dots; shorter abstracts are stored
unchanged. -/
def truncAbstract (abstract : String) : String :=
  if 500 < abstract.length then String.mk (abstract.toList.take 500) ++ "..."
  else abstract

/-- The abstract selection at fetch_legislation.py lines 199-201: empty
when the abstracts list is absent or empty, otherwise the first
abstract text. -/
def firstAbstract (b : RawBill) : String :=
  match b.abstracts with
  | [] => ""
  | a :: _ => a

/-- One row of the per-bill table as built at fetch_legislation.py
lines 222-236.  The year is none where the Python row holds the falsy
empty string rendered as Unknown. -/
structure ProcessedBill where
  state : String
  billId : String
  title : String
  statusCategory : String
  latestAction : String
  category : String
  session : String
  year : Option Nat
  created : String
  updated : String
  url : String
  abstract : String
  lastChecked : String
deriving DecidableEq

/-- The row built for one raw bill (fetch_legislation.py lines
222-236), with the wall-clock Last_Checked stamp supplied as a
parameter instead of datetime.now. -/
def mkProcessedBill (b : RawBill) (now : String) : ProcessedBill :=
  { state := b.jurisdiction
    billId := b.identifier
    title := b.title
    statusCategory := get_bill_status_category b.actions
    latestAction := match b.actions with | [] => "" | d :: _ => d
    category := categorize_bill b.title (firstAbstract b)
    session := b.session
    year := extractYear b.created_at
    created := b.created_at
    updated := b.updated_at
    url := match b.sources with | [] => "" | u :: _ => u
    abstract := truncAbstract (firstAbstract b)
    lastChecked := now }

/-- The processing loop of fetch_legislation.py lines 190-238: a bill
whose key was already seen is skipped; the key is recorded before the
relevance filter runs; a bill the filter rejects is dropped; an
accepted bill contributes its processed row. -/
def processLoop (now : String) : List RawBill → List String → List ProcessedBill
  | [], _ => []
  | b :: rest, seen =>
    if seen.contains (billKey b) then processLoop now rest seen
    else if is_ai_related b.title (firstAbstract b) then
      mkProcessedBill b now :: processLoop now rest (billKey b :: seen)
    else processLoop now rest (billKey b :: seen)

/-- Insert x before the first element x compares le to, keeping equal
elements in their original order: the insertion step of a stable
sort. -/
def insertLe {α : Type} (le : α → α → Bool) (x : α) : List α → List α
  | [] => [x]
  | y :: ys => if le x y then x :: y :: ys else y :: insertLe le x ys

/-- Stable insertion sort by a total boolean preorder, modelling the
stability of Python list.sort with a key function. -/
def sortByLe {α : Type} (le : α → α → Bool) : List α → List α
  | [] => []
  | x :: xs => insertLe le x (sortByLe le xs)

/-- The year component of the sort key at fetch_legislation.py line
244: the negated year, with a falsy year (absent, or zero) mapped
to 0. -/
def yearSortKey (y : Option Nat) : Int :=
  match y with
  | none => 0
  | some n => if n = 0 then 0 else -(n : Int)

/-- Lexicographic strict order on character lists, modelling Python
string comparison by code point. -/
def charListLt : List Char → List Char → Bool
  | [], [] => false
  | [], _ :: _ => true
  | _ :: _, [] => false
  | a :: as, b :: bs =>
    if a < b then true
    else if b < a then false
    else charListLt as bs

/-- Strict string order by code points, as Python compares strings. -/
def strLt (a b : String) : Bool := charListLt a.toList b.toList

/-- Reflexive string order derived from strLt. -/
def strLe (a b : String) : Bool := !(strLt b a)

/-- The tuple key order of the per-bill sort at fetch_legislation.py
line 244: year key first, then state, then bill identifier. -/
def billSortLe (a b : ProcessedBill) : Bool :=
  if yearSortKey a.year ≠ yearSortKey b.year then
    decide (yearSortKey a.year < yearSortKey b.year)
  else if a.state ≠ b.state then strLt a.state b.state
  else strLe a.billId b.billId

/-- The processed per-bill table: the processing loop output sorted
stably by the key of line 244. -/
def processedData (bills : List RawBill) (now : String) : List ProcessedBill :=
  sortByLe billSortLe (processLoop now bills [])

/-- One per-state accumulator of fetch_legislation.py lines 266-273,
with the Python sets of category and year strings modelled as
insertion-ordered duplicate-free lists. -/
structure StateEntry where
  total : Nat
  enacted : Nat
  active : Nat
  failed : Nat
  categories : List String
  years : List String
deriving DecidableEq

/-- The fresh accumulator a state gets on first sight (lines
266-273). -/
def emptyStateEntry : StateEntry :=
  { total := 0, enacted := 0, active := 0, failed := 0,
    categories := [], years := [] }

/-- Model of Python set.add on an insertion-ordered list. -/
def addToSet (s : List String) (x : String) : List String :=
  if s.contains x then s else s ++ [x]

/-- The per-bill accumulator update of fetch_legislation.py lines
275-287: total incremented, category added, a truthy year added as its
decimal string, and exactly one of the three status buckets
incremented — Enacted on the Enacted status, Failed on
Failed/Withdrawn or Vetoed, Active otherwise. -/
def updateEntry (e : StateEntry) (b : ProcessedBill) : StateEntry :=
  let e1 := { e with total := e.total + 1,
                     categories := addToSet e.categories b.category }
  let e2 := match b.year with
    | none => e1
    | some y =>
      if y = 0 then e1 else { e1 with years := addToSet e1.years (toString y) }
  if b.statusCategory = "Enacted" then { e2 with enacted := e2.enacted + 1 }
  else if b.statusCategory = "Failed/Withdrawn" ∨ b.statusCategory = "Vetoed" then
    { e2 with failed := e2.failed + 1 }
  else { e2 with active := e2.active + 1 }

/-- Model of the insertion-ordered dict state_data: update an existing
state entry in place, or append a new state at the end. -/
def updateAssoc : List (String × StateEntry) → String → ProcessedBill →
    List (String × StateEntry)
  | [], s, b => [(s, updateEntry emptyStateEntry b)]
  | (k, e) :: rest, s, b =>
    if k = s then (k, updateEntry e b) :: rest
    else (k, e) :: updateAssoc rest s b

/-- The aggregation loop of fetch_legislation.py lines 261-287. -/
def buildStateData (bills : List ProcessedBill) : List (String × StateEntry) :=
  bills.foldl (fun sd b => updateAssoc sd b.state b) []

/-- Association-list access for a state entry. -/
def lookupEntry : List (String × StateEntry) → String → Option StateEntry
  | [], _ => none
  | (k, e) :: rest, s => if k = s then some e else lookupEntry rest s

/-- One row of the per-state summary table (fetch_legislation.py lines
293-302). -/
structure SummaryRow where
  state : String
  totalBills : Nat
  enacted : Nat
  activePending : Nat
  failedVetoed : Nat
  categories : String
  yearsActive : String
  frameworkStatus : String
deriving DecidableEq

/-- The summary row built for one state (fetch_legislation.py lines
293-302), including the Framework_Status rule of line 301:
Comprehensive when at least 3 enacted, else Some Activity when at
least 2 total bills, else Minimal. -/
def mkSummaryRow (s : String) (e : StateEntry) : SummaryRow :=
  { state := s
    totalBills := e.total
    enacted := e.enacted
    activePending := e.active
    failedVetoed := e.failed
    categories := String.intercalate "; " (sortByLe strLe e.categories)
    yearsActive := String.intercalate "; " (sortByLe strLe e.years)
    frameworkStatus :=
      if 3 ≤ e.enacted then "Comprehensive"
      else if 2 ≤ e.total then "Some Activity"
      else "Minimal" }

/-- The summary table of fetch_legislation.py lines 290-305: one row
per state in ascending state order, then stably re-sorted by total
bills descending. -/
def summaryRows (bills : List ProcessedBill) : List SummaryRow :=
  let sd := buildStateData bills
  let rows := (sortByLe strLe (sd.map (fun p => p.1))).filterMap
    (fun s => (lookupEntry sd s).map (fun e => mkSummaryRow s e))
  sortByLe (fun a b => Nat.ble b.totalBills a.totalBills) rows

/-- One row of the trend table (fetch_legislation.py lines 329-334).
The Enactment_Rate display string — a floating-point percentage format
of enacted over introduced — is presentation only and is not
modelled. -/
structure TrendRow where
  year : Nat
  billsIntroduced : Nat
  billsEnacted : Nat
deriving DecidableEq

/-- The per-year accumulator update of fetch_legislation.py lines
321-325 over an insertion-ordered association list of
(year, introduced, enacted). -/
def updateYear : List (Nat × Nat × Nat) → Nat → Bool → List (Nat × Nat × Nat)
  | [], y, isEnacted => [(y, 1, if isEnacted then 1 else 0)]
  | (k, t, e) :: rest, y, isEnacted =>
    if k = y then (k, t + 1, if isEnacted then e + 1 else e) :: rest
    else (k, t, e) :: updateYear rest y isEnacted

/-- The per-year accumulation of fetch_legislation.py lines 317-325:
only truthy years at or after 2019 are counted. -/
def buildYearData (bills : List ProcessedBill) : List (Nat × Nat × Nat) :=
  bills.foldl (fun yd b =>
    match b.year with
    | none => yd
    | some y =>
      if y ≠ 0 ∧ 2019 ≤ y then updateYear yd y (b.statusCategory = "Enacted")
      else yd) []

/-- Reflexive order on years for the ascending trend sort. -/
def natLe (a b : Nat) : Bool := Nat.ble a b

/-- Association-list access for a year row. -/
def lookupYear : List (Nat × Nat × Nat) → Nat → Option (Nat × Nat)
  | [], _ => none
  | (k, t, e) :: rest, y => if k = y then some (t, e) else lookupYear rest y

/-- The trend table of fetch_legislation.py lines 327-339: one row per
counted year, ascending. -/
def trendRows (bills : List ProcessedBill) : List TrendRow :=
  let yd := buildYearData bills
  (sortByLe natLe (yd.map (fun p => p.1))).filterMap
    (fun y => (lookupYear yd y).map (fun te => TrendRow.mk y te.1 te.2))

/-- The three tables a completed run writes (each CSV also carries its
fixed header row, present whether or not any data row follows). -/
structure PipelineOutput where
  perBill : List ProcessedBill
  summary : List SummaryRow
  trends : List TrendRow
deriving DecidableEq

/-- Embedding of process_legislation_data (fetch_legislation.py lines
175-342) downstream of the fetch: none models the early return at
lines 181-183 — the message No bills found is printed and no file is
written; some output models a completed run writing the three
tables. -/
def process_legislation_data (bills : List RawBill) (now : String) :
    Option PipelineOutput :=
  if bills.isEmpty then none
  else some
    { perBill := processedData bills now
      summary := summaryRows (processedData bills now)
      trends := trendRows (processedData bills now) }

/-- One upstream HTTP exchange as the fetch loop sees it: ok carries
the optional results list (none when the response JSON has no results
key) and whether a usable next link is present; err is a request that
fails — raise_for_status throwing on the given HTTP status code, or
any other RequestException. -/
inductive HttpResponse where
  | ok (results : Option (List RawBill)) (next : Bool)
  | err (status : Nat)
deriving DecidableEq

/-- The pagination loop of fetch_legislation.py lines 61-77, given the
sequence of responses the API would return to successive requests:
while a next link is present and fewer than five pages were taken, one
more request is issued; a failing request ends the loop (the
surrounding except keeps the bills already accumulated); a page whose
JSON lacks results adds nothing but pagination continues.  Returns the
bills gathered and the number of requests issued; an exhausted
response sequence counts as a failing request. -/
def fetchLoop (resps : List HttpResponse) (hasNext : Bool) (page : Nat) :
    List RawBill × Nat :=
  if hasNext = false then ([], 0)
  else if 5 ≤ page then ([], 0)
  else
    match resps with
    | [] => ([], 1)
    | HttpResponse.err _ :: _ => ([], 1)
    | HttpResponse.ok results nx :: rest =>
      let pr := fetchLoop rest nx (page + 1)
      ((results.getD []) ++ pr.1, 1 + pr.2)

/-- One search term of fetch_ai_legislation_comprehensive
(fetch_legislation.py lines 50-86): the first request is issued; a
failure is caught by the except at line 81 and abandons the term at
once — no retry, no simplified query, no cool-down, whatever the
status; on success the results are taken when present and pagination
follows.  Returns the bills fetched for the term and the number of
requests issued. -/
def fetchTerm (resps : List HttpResponse) : List RawBill × Nat :=
  match resps with
  | [] => ([], 1)
  | HttpResponse.err _ :: _ => ([], 1)
  | HttpResponse.ok none _ :: _ => ([], 1)
  | HttpResponse.ok (some results) nx :: rest =>
    let pr := fetchLoop rest nx 1
    (results ++ pr.1, 1 + pr.2)

/-- Embedding of fetch_ai_legislation_comprehensive (fetch_legislation
lines 8-89) downstream of the credential check: one response sequence
per configured search term, processed strictly in order; every term
contributes whatever its requests yielded. -/
def fetch_ai_legislation_comprehensive
    (termResponses : List (List HttpResponse)) : List RawBill :=
  (termResponses.map (fun rs => (fetchTerm rs).1)).flatten

/-- A bill the upstream would have returned on the hypothetical retry
after a 429 response. -/
def retryBill : RawBill :=
  { jurisdiction := "Ohio", identifier := "SB 10",
    title := "artificial intelligence", abstracts := [], actions := [],
    session := "", created_at := "", updated_at := "", sources := [] }

/-- An unremarkable raw bill used to exercise the non-empty branch of
the pipeline. -/
def plainBill : RawBill :=
  { jurisdiction := "Utah", identifier := "HB 2",
    title := "artificial intelligence policy act",
    abstracts := [], actions := ["Introduced in House"], session := "2024",
    created_at := "2024-02-02T00:00:00Z", updated_at := "", sources := [] }

/-- A processed row with one enacted bill, the shape the pipeline
produces for a jurisdiction whose only bill was signed into law. -/
def enactedRow : ProcessedBill :=
  { state := "California", billId := "AB 1",
    title := "artificial intelligence accountability",
    statusCategory := "Enacted", latestAction := "Signed by Governor",
    category := "General AI", session := "2024", year := none,
    created := "", updated := "", url := "", abstract := "",
    lastChecked := "" }

/-- The summary row the aggregation builds from enactedRow alone. -/
def c1Row : SummaryRow :=
  mkSummaryRow "California"
    { total := 1, enacted := 1, active := 0, failed := 0,
      categories := ["General AI"], years := [] }

/-- A processed row sitting in the active/pending bucket. -/
def committeeRow : ProcessedBill :=
  { state := "Nevada", billId := "SB 5",
    title := "automated decision systems",
    statusCategory := "In Committee", latestAction := "Referred to committee",
    category := "General AI", session := "2023", year := none,
    created := "", updated := "", url := "", abstract := "",
    lastChecked := "" }

/-- The summary row the aggregation builds from committeeRow alone. -/
def c10Row : SummaryRow :=
  mkSummaryRow "Nevada"
    { total := 1, enacted := 0, active := 1, failed := 0,
      categories := ["General AI"], years := [] }

/-- An abstract of 501 identical characters, one past the truncation
threshold. -/
def longAbstract : String := String.mk (List.replicate 501 'a')

/-- A relevant raw bill carrying the 501-character abstract. -/
def longBill : RawBill :=
  { jurisdiction := "California", identifier := "AB 99",
    title := "artificial intelligence systems",
    abstracts := [longAbstract], actions := [], session := "",
    created_at := "", updated_at := "", sources := [] }

/-- C7: the relevance filter accepts exactly when the lower-cased
title+abstract text contains at least one inclusion keyword and no
exclusion keyword; in particular any text containing an exclusion
keyword is rejected, whatever else it contains. -/
theorem C7_relevance_filter :
    (∀ title abstract : String,
      is_ai_related title abstract = isRelevantSpec title abstract) ∧
    (∀ title abstract : String,
      containsAny (pyLower (title ++ " " ++ abstract)) exclude_terms = true →
      is_ai_related title abstract = false) := by
  constructor
  · intro t a
    unfold is_ai_related isRelevantSpec
    cases h1 : containsAny (pyLower (t ++ " " ++ a)) ai_terms <;>
      cases h2 : containsAny (pyLower (t ++ " " ++ a)) exclude_terms <;>
        simp [h1, h2]
  · intro t a h
    unfold is_ai_related
    cases h1 : containsAny (pyLower (t ++ " " ++ a)) ai_terms <;> simp [h1, h]

/-- C7 witness: a title holding both the inclusion keyword artificial
intelligence and the exclusion keyword farming is rejected. -/
theorem C7_relevance_filter_witness :
    is_ai_related "Artificial intelligence in farming" "" = false :=
  C7_relevance_filter.2 "Artificial intelligence in farming" "" (by decide)

/-- C6: status normalization returns Introduced on an empty action
list, otherwise the first matching status of the priority table
Enacted, Passed, In Committee, Failed/Withdrawn, Vetoed over the
lower-cased first description only (Active when nothing matches); a
description holding both an enacted keyword and a committee keyword
classifies as Enacted. -/
theorem C6_status_normalization :
    get_bill_status_category [] = "Introduced" ∧
    (∀ d rest, get_bill_status_category (d :: rest) = statusSpec d) ∧
    (∀ d rest, strContains (pyLower d) "enacted" = true →
      strContains (pyLower d) "committee" = true →
      get_bill_status_category (d :: rest) = "Enacted") := by
  refine ⟨rfl, fun d rest => rfl, ?_⟩
  intro d rest h1 h2
  have hc : containsAny (pyLower d) ["signed", "enacted", "effective", "law"] = true := by
    unfold containsAny
    simp only [List.any_eq_true]
    exact ⟨"enacted", by simp, h1⟩
  unfold get_bill_status_category
  simp [hc]

/-- C6 witness: a latest action mentioning both enacted and committee
classifies as Enacted, honoring the priority order. -/
theorem C6_status_normalization_witness :
    get_bill_status_category ["Enacted as reported by committee"] = "Enacted" :=
  C6_status_normalization.2.2 "Enacted as reported by committee" []
    (by decide) (by decide)

/-- C2 counterexample: the string 2023xyz fails the ISO parse, and the
bare except at fetch_legislation.py line 219 leaves the year absent;
there is no fall-back to the first four characters, so the claimed
value 2023 is not produced. -/
theorem C2_year_extraction_counterexample :
    extractYear "2023xyz" = none ∧ (none : Option Nat) ≠ some 2023 :=
  ⟨by decide, by decide⟩

/-- C2 amended: year extraction returns the calendar year of the
ISO-8601 parse of the Z-replaced timestamp; when the string is empty or
the ISO parse fails, the year is absent (Unknown) — there is no
fall-back to the first four characters, so 2023xyz yields Unknown. -/
theorem C2_year_extraction_amended :
    (∀ (s : String) (y : Nat), ¬(s = "") →
      fromisoformatYear (replaceZ s) = some y → extractYear s = some y) ∧
    (∀ s : String, fromisoformatYear (replaceZ s) = none → extractYear s = none) ∧
    extractYear "2024-01-01T00:00:00Z" = some 2024 ∧
    extractYear "2023xyz" = none ∧
    extractYear "" = none := by
  refine ⟨?_, ?_, by decide, by decide, rfl⟩
  · intro s y hne h
    unfold extractYear
    have hb : (s == "") = false := by
      cases hc : s == ""
      · rfl
      · exact absurd (eq_of_beq hc) hne
    simp [hb, h]
  · intro s h
    unfold extractYear
    cases hc : s == "" <;> simp [hc, h]

/-- C2 witness: a well-formed ISO timestamp with a Z suffix yields its
calendar year through the first conjunct of the amended theorem. -/
theorem C2_year_extraction_witness :
    extractYear "2023-05-17T12:30:00Z" = some 2023 :=
  C2_year_extraction_amended.1 "2023-05-17T12:30:00Z" 2023 (by decide) (by decide)

/-- The seen-set loop equals spec-level first-wins deduplication of the
input restricted to keys not yet seen. -/
theorem dedupAux_eq_spec (xs : List RawBill) :
    ∀ seen, dedupAux xs seen =
      specFirstWins (xs.filter (fun y => !(seen.contains (billKey y)))) := by
  induction xs with
  | nil => intro seen; simp [specFirstWins, dedupAux]
  | cons x rest ih =>
    intro seen
    cases hk : seen.contains (billKey x) with
    | true =>
      simp only [dedupAux, hk, if_true, List.filter_cons, Bool.not_true,
        Bool.false_eq_true, if_false]
      exact ih seen
    | false =>
      simp only [dedupAux, hk, Bool.false_eq_true, if_false, List.filter_cons,
        Bool.not_false, if_true, specFirstWins]
      refine congrArg (x :: ·) ?_
      rw [ih (billKey x :: seen)]
      refine congrArg specFirstWins ?_
      rw [List.filter_filter]
      apply List.filter_congr
      intro y _
      simp [List.contains_cons, Bool.not_or, Bool.and_comm]

/-- The keys of the seen-set loop output are pairwise distinct and none
of them was already in the seen set. -/
theorem dedupAux_keys_nodup (xs : List RawBill) :
    ∀ seen, ((dedupAux xs seen).map billKey).Nodup ∧
      ∀ b ∈ dedupAux xs seen, seen.contains (billKey b) = false := by
  induction xs with
  | nil =>
    intro seen
    exact ⟨List.nodup_nil, by intro b hb; cases hb⟩
  | cons x rest ih =>
    intro seen
    cases hk : seen.contains (billKey x) with
    | true =>
      simpa only [dedupAux, hk, if_true] using ih seen
    | false =>
      obtain ⟨hnd, hfresh⟩ := ih (billKey x :: seen)
      simp only [dedupAux, hk, Bool.false_eq_true, if_false, List.map_cons]
      constructor
      · refine List.nodup_cons.mpr ⟨?_, hnd⟩
        intro hmem
        obtain ⟨b, hb, he⟩ := List.mem_map.mp hmem
        have := hfresh b hb
        rw [List.contains_cons, he] at this
        simp at this
      · intro b hb
        rcases List.mem_cons.mp hb with rfl | hb'
        · exact hk
        · have := hfresh b hb'
          rw [List.contains_cons] at this
          exact (Bool.or_eq_false_iff.mp this).2

/-- Every input record has a representative with the same key in the
seen-set loop output, unless its key was already seen. -/
theorem dedupAux_covers (xs : List RawBill) :
    ∀ seen b, b ∈ xs →
      seen.contains (billKey b) = true ∨
      ∃ b2 ∈ dedupAux xs seen, billKey b2 = billKey b := by
  induction xs with
  | nil => intro seen b hb; cases hb
  | cons x rest ih =>
    intro seen b hb
    rcases List.mem_cons.mp hb with rfl | hb'
    · cases hk : seen.contains (billKey b) with
      | true => exact Or.inl rfl
      | false =>
        right
        refine ⟨b, ?_, rfl⟩
        simp only [dedupAux, hk, Bool.false_eq_true, if_false]
        exact List.mem_cons_self _ _
    · cases hk : seen.contains (billKey x) with
      | true =>
        rcases ih seen b hb' with h | ⟨b2, hb2, he⟩
        · exact Or.inl h
        · refine Or.inr ⟨b2, ?_, he⟩
          simp only [dedupAux, hk, if_true]
          exact hb2
      | false =>
        rcases ih (billKey x :: seen) b hb' with h | ⟨b2, hb2, he⟩
        · rw [List.contains_cons] at h
          rcases Bool.or_eq_true_iff.mp h with heq | hseen
          · right
            refine ⟨x, ?_, (eq_of_beq heq).symm⟩
            simp only [dedupAux, hk, Bool.false_eq_true, if_false]
            exact List.mem_cons_self _ _
          · exact Or.inl hseen
        · right
          refine ⟨b2, ?_, he⟩
          simp only [dedupAux, hk, Bool.false_eq_true, if_false]
          exact List.mem_cons_of_mem _ hb2

/-- Running the seen-set loop on its own output with the same seen set
changes nothing. -/
theorem dedupAux_idem (xs : List RawBill) :
    ∀ seen, dedupAux (dedupAux xs seen) seen = dedupAux xs seen := by
  induction xs with
  | nil => intro seen; rfl
  | cons x rest ih =>
    intro seen
    cases hk : seen.contains (billKey x) with
    | true =>
      simp only [dedupAux, hk, if_true]
      exact ih seen
    | false =>
      simp only [dedupAux, hk, Bool.false_eq_true, if_false]
      rw [ih (billKey x :: seen)]

/-- C8: the Deduplicator is idempotent — running it on its own output
yields the same sequence, hence the same keys with no further
reduction. -/
theorem C8_dedup_idempotent :
    ∀ xs : List RawBill,
      dedup (dedup xs) = dedup xs ∧
      (dedup (dedup xs)).map billKey = (dedup xs).map billKey :=
  fun xs => ⟨dedupAux_idem xs [], congrArg (List.map billKey) (dedupAux_idem xs [])⟩

/-- C5 counterexample: the deduplication key is the underscore-joined
string, so two records whose pairs differ — jurisdiction Texas_HB with
identifier 7, and jurisdiction Texas with identifier HB_7 — are
conflated: the second record is dropped although the claim says records
with differing pairs are never merged. -/
theorem C5_dedup_counterexample :
    dedup [colBillA, colBillB] = [colBillA] ∧
    ¬(colBillB.jurisdiction = colBillA.jurisdiction ∧
      colBillB.identifier = colBillA.identifier) :=
  ⟨by decide, by decide⟩

/-- C5 amended: deduplication keeps at most one record per
underscore-joined key string jurisdiction_identifier, preserving the
first occurrence (it equals spec-level first-wins deduplication by that
key); distinct surviving records have distinct keys and hence distinct
(jurisdiction, identifier) pairs, and every input record is represented
by a surviving record with the same joined key — but records are
conflated exactly when their joined key strings are equal, which can
merge differing pairs when a jurisdiction name contains an
underscore. -/
theorem C5_dedup_amended :
    ∀ xs : List RawBill,
      dedup xs = specFirstWins xs ∧
      ((dedup xs).map billKey).Nodup ∧
      ((dedup xs).map (fun b => (b.jurisdiction, b.identifier))).Nodup ∧
      ∀ b ∈ xs, ∃ b2 ∈ dedup xs, billKey b2 = billKey b := by
  intro xs
  have hkeys : ((dedup xs).map billKey).Nodup := (dedupAux_keys_nodup xs []).1
  refine ⟨?_, hkeys, ?_, ?_⟩
  · have h := dedupAux_eq_spec xs []
    simpa [dedup] using h
  · have hmap : (dedup xs).map billKey =
        ((dedup xs).map (fun b => (b.jurisdiction, b.identifier))).map
          (fun p => p.1 ++ "_" ++ p.2) := by
      rw [List.map_map]
      rfl
    rw [hmap] at hkeys
    exact hkeys.of_map _
  · intro b hb
    rcases dedupAux_covers xs [] b hb with h | h
    · simp [List.contains] at h
    · exact h

/-- C5 witness: the colliding pair is represented in the output by a
record with the same joined key, through the amended theorem. -/
theorem C5_dedup_amended_witness :
    ∃ b2 ∈ dedup [colBillA, colBillB], billKey b2 = billKey colBillB :=
  (C5_dedup_amended [colBillA, colBillB]).2.2.2 colBillB (by decide)

/-- Membership is preserved by stable insertion. -/
theorem mem_insertLe {α : Type} (le : α → α → Bool) (x z : α) (l : List α) :
    z ∈ insertLe le x l ↔ z = x ∨ z ∈ l := by
  induction l with
  | nil => simp [insertLe]
  | cons y ys ih =>
    cases h : le x y with
    | true => simp [insertLe, h]
    | false =>
      simp only [insertLe, h, Bool.false_eq_true, if_false, List.mem_cons, ih]
      tauto

/-- The stable sort permutes its input: membership is unchanged. -/
theorem mem_sortByLe {α : Type} (le : α → α → Bool) (z : α) (l : List α) :
    z ∈ sortByLe le l ↔ z ∈ l := by
  induction l with
  | nil => simp [sortByLe]
  | cons x xs ih => simp [sortByLe, mem_insertLe, ih]

/-- Every row the processing loop emits is the processed form of some
input bill. -/
theorem mem_processLoop (now : String) :
    ∀ (bills : List RawBill) (seen : List String) (pb : ProcessedBill),
      pb ∈ processLoop now bills seen →
      ∃ b ∈ bills, pb = mkProcessedBill b now := by
  intro bills
  induction bills with
  | nil => intro seen pb h; cases h
  | cons b rest ih =>
    intro seen pb h
    simp only [processLoop] at h
    cases hk : seen.contains (billKey b) with
    | true =>
      rw [hk] at h
      simp only [if_true] at h
      obtain ⟨b2, hb2, he⟩ := ih seen pb h
      exact ⟨b2, List.mem_cons_of_mem _ hb2, he⟩
    | false =>
      rw [hk] at h
      simp only [Bool.false_eq_true, if_false] at h
      cases hai : is_ai_related b.title (firstAbstract b) with
      | true =>
        rw [hai] at h
        simp only [if_true, List.mem_cons] at h
        rcases h with rfl | h2
        · exact ⟨b, List.mem_cons_self _ _, rfl⟩
        · obtain ⟨b2, hb2, he⟩ := ih _ pb h2
          exact ⟨b2, List.mem_cons_of_mem _ hb2, he⟩
      | false =>
        rw [hai] at h
        simp only [Bool.false_eq_true, if_false] at h
        obtain ⟨b2, hb2, he⟩ := ih _ pb h
        exact ⟨b2, List.mem_cons_of_mem _ hb2, he⟩

/-- Every summary row arises from a looked-up state entry. -/
theorem summaryRows_shape (bills : List ProcessedBill) (row : SummaryRow)
    (h : row ∈ summaryRows bills) :
    ∃ s e, lookupEntry (buildStateData bills) s = some e ∧
      row = mkSummaryRow s e := by
  simp only [summaryRows] at h
  rw [mem_sortByLe] at h
  obtain ⟨s, _, hsome⟩ := List.mem_filterMap.mp h
  obtain ⟨e, he, heq⟩ := Option.map_eq_some'.mp hsome
  exact ⟨s, e, he, heq.symm⟩

/-- The accumulator update adds the bill to exactly one status bucket,
preserving the count conservation. -/
theorem updateEntry_inv (e : StateEntry) (b : ProcessedBill)
    (h : e.total = e.enacted + e.active + e.failed) :
    (updateEntry e b).total =
      (updateEntry e b).enacted + (updateEntry e b).active +
        (updateEntry e b).failed := by
  unfold updateEntry
  cases b.year with
  | none => split_ifs <;> simp <;> omega
  | some y =>
    by_cases hy : y = 0 <;> simp only [hy, if_true, if_false] <;>
      split_ifs <;> simp <;> omega

/-- Count conservation is preserved across one dict update. -/
theorem updateAssoc_inv :
    ∀ (sd : List (String × StateEntry)) (s : String) (b : ProcessedBill),
      (∀ p ∈ sd, p.2.total = p.2.enacted + p.2.active + p.2.failed) →
      ∀ p ∈ updateAssoc sd s b,
        p.2.total = p.2.enacted + p.2.active + p.2.failed := by
  intro sd
  induction sd with
  | nil =>
    intro s b _ p hp
    simp only [updateAssoc, List.mem_singleton] at hp
    subst hp
    exact updateEntry_inv _ _ (by simp [emptyStateEntry])
  | cons q rest ih =>
    intro s b hinv p hp
    obtain ⟨k, e⟩ := q
    simp only [updateAssoc] at hp
    by_cases hk : k = s
    · rw [if_pos hk] at hp
      rcases List.mem_cons.mp hp with rfl | hp2
      · exact updateEntry_inv e b (hinv (k, e) (List.mem_cons_self _ _))
      · exact hinv p (List.mem_cons_of_mem _ hp2)
    · rw [if_neg hk] at hp
      rcases List.mem_cons.mp hp with rfl | hp2
      · exact hinv (k, e) (List.mem_cons_self _ _)
      · exact ih s b (fun r hr => hinv r (List.mem_cons_of_mem _ hr)) p hp2

/-- Every entry of the aggregation dict satisfies count
conservation. -/
theorem buildStateData_inv (bills : List ProcessedBill) :
    ∀ p ∈ buildStateData bills,
      p.2.total = p.2.enacted + p.2.active + p.2.failed := by
  unfold buildStateData
  suffices h : ∀ (sd : List (String × StateEntry)),
      (∀ p ∈ sd, p.2.total = p.2.enacted + p.2.active + p.2.failed) →
      ∀ p ∈ bills.foldl (fun sd b => updateAssoc sd b.state b) sd,
        p.2.total = p.2.enacted + p.2.active + p.2.failed by
    exact h [] (by intro p hp; cases hp)
  induction bills with
  | nil => intro sd hinv p hp; exact hinv p hp
  | cons b rest ih =>
    intro sd hinv p hp
    simp only [List.foldl_cons] at hp
    exact ih _ (updateAssoc_inv sd b.state b hinv) p hp

/-- A successful lookup is a membership in the association list. -/
theorem lookupEntry_mem :
    ∀ (sd : List (String × StateEntry)) (s : String) (e : StateEntry),
      lookupEntry sd s = some e → (s, e) ∈ sd := by
  intro sd
  induction sd with
  | nil => intro s e h; cases h
  | cons q rest ih =>
    intro s e h
    obtain ⟨k, e2⟩ := q
    simp only [lookupEntry] at h
    by_cases hk : k = s
    · rw [if_pos hk] at h
      injection h with he
      subst he
      subst hk
      exact List.mem_cons_self _ _
    · rw [if_neg hk] at h
      exact List.mem_cons_of_mem _ (ih s e h)

/-- C1 counterexample: a jurisdiction with exactly one bill, that bill
enacted, gets Framework_Status Minimal from line 301 — the code tests
whether the total is at least 2, not whether the enacted count is at
least 1 — contradicting the claimed Some Activity. -/
theorem C1_maturity_tier_counterexample :
    (summaryRows [enactedRow]).map
      (fun r => (r.totalBills, r.enacted, r.frameworkStatus)) =
      [(1, 1, "Minimal")] ∧
    "Minimal" ≠ "Some Activity" :=
  ⟨by decide, by decide⟩

/-- C1 amended: every summary row derives its maturity tier as
Comprehensive when the enacted count is at least 3, otherwise Some
Activity when the total bill count is at least 2, otherwise Minimal;
in particular a jurisdiction with 1 total bill of which 1 is enacted
is classified Minimal. -/
theorem C1_maturity_tier_amended :
    ∀ (bills : List ProcessedBill) (row : SummaryRow),
      row ∈ summaryRows bills →
      row.frameworkStatus =
        (if 3 ≤ row.enacted then "Comprehensive"
         else if 2 ≤ row.totalBills then "Some Activity"
         else "Minimal") := by
  intro bills row hrow
  obtain ⟨s, e, _, rfl⟩ := summaryRows_shape bills row hrow
  rfl

/-- C1 witness: the amended tier rule applied to the summary row the
pipeline builds from a single enacted California bill. -/
theorem C1_maturity_tier_witness :
    c1Row.frameworkStatus =
      (if 3 ≤ c1Row.enacted then "Comprehensive"
       else if 2 ≤ c1Row.totalBills then "Some Activity"
       else "Minimal") :=
  C1_maturity_tier_amended [enactedRow] c1Row (by decide)

/-- C10: in every summary row the total equals the sum of the three
status buckets — each processed bill increments exactly one of
enacted (status Enacted), failed (status Failed/Withdrawn or Vetoed)
or active (every other status, Introduced included), so the rollup
neither drops nor double-counts a bill. -/
theorem C10_rollup_conservation :
    ∀ (bills : List ProcessedBill) (row : SummaryRow),
      row ∈ summaryRows bills →
      row.totalBills = row.enacted + row.activePending + row.failedVetoed := by
  intro bills row hrow
  obtain ⟨s, e, hlook, rfl⟩ := summaryRows_shape bills row hrow
  have hmem := lookupEntry_mem _ _ _ hlook
  have hinv := buildStateData_inv bills (s, e) hmem
  simpa [mkSummaryRow] using hinv

/-- C10 witness: conservation on the summary row built from a single
in-committee Nevada bill. -/
theorem C10_rollup_conservation_witness :
    c10Row.totalBills = c10Row.enacted + c10Row.activePending + c10Row.failedVetoed :=
  C10_rollup_conservation [committeeRow] c10Row (by decide)

/-- C3 counterexample: with zero fetched bills the script returns at
line 183 before the sink stage, so nothing is written — the claimed
empty-but-headered output, the some value holding three empty tables,
is not produced. -/
theorem C3_empty_run_counterexample :
    process_legislation_data [] "2025-10-12 00:00:00" = none ∧
    (none : Option PipelineOutput) ≠
      some { perBill := [], summary := [], trends := [] } :=
  ⟨rfl, by decide⟩

/-- C3 amended: when the fetch stage yields zero bills the run still
terminates normally, reporting No bills found informationally, but it
returns before any table is written, producing no output files at all;
the three tables (headers always included) are produced exactly when
at least one bill was fetched. -/
theorem C3_empty_run_amended :
    (∀ now : String, process_legislation_data [] now = none) ∧
    (∀ (bills : List RawBill) (now : String), bills ≠ [] →
      process_legislation_data bills now =
        some { perBill := processedData bills now,
               summary := summaryRows (processedData bills now),
               trends := trendRows (processedData bills now) }) := by
  constructor
  · intro now; rfl
  · intro bills now hne
    cases bills with
    | nil => exact absurd rfl hne
    | cons b rest => rfl

/-- C3 witness: a one-bill fetch produces the three tables. -/
theorem C3_empty_run_witness :
    process_legislation_data [plainBill] "2025-10-12 00:00:00" =
      some { perBill := processedData [plainBill] "2025-10-12 00:00:00",
             summary := summaryRows (processedData [plainBill] "2025-10-12 00:00:00"),
             trends := trendRows (processedData [plainBill] "2025-10-12 00:00:00") } :=
  C3_empty_run_amended.2 [plainBill] "2025-10-12 00:00:00" (by simp)

/-- C4 counterexample: on a 429 response the fetch issues no further
request for the term and gathers nothing — the claimed
cool-down-and-retry would consume the second, successful response and
yield the bill after two requests, but the code abandons the term
after the single failed request. -/
theorem C4_retry_counterexample :
    fetchTerm [HttpResponse.err 429, HttpResponse.ok (some [retryBill]) false] =
      ([], 1) ∧
    (([], 1) : List RawBill × Nat) ≠ ([retryBill], 2) :=
  ⟨rfl, by decide⟩

/-- C4 amended: every failing request — 429 rate limits, 422
validation failures and any other error alike — is caught by the
single except at line 81: the term is abandoned after that one
request, with no cool-down, no retry and no simplified query, and the
run continues with the remaining terms unchanged. -/
theorem C4_retry_amended :
    (∀ (status : Nat) (rest : List HttpResponse),
      fetchTerm (HttpResponse.err status :: rest) = ([], 1)) ∧
    (∀ (status : Nat) (rest : List HttpResponse)
       (others : List (List HttpResponse)),
      fetch_ai_legislation_comprehensive
          ((HttpResponse.err status :: rest) :: others) =
        fetch_ai_legislation_comprehensive others) := by
  constructor
  · intro status rest; rfl
  · intro status rest others
    simp [fetch_ai_legislation_comprehensive, fetchTerm]

set_option maxRecDepth 100000 in
/-- C9 counterexample: the pipeline row for a relevant bill whose
abstract has 501 characters stores an Abstract of 503 characters — the
first 500 plus the three-dot suffix — exceeding the claimed 500-character
bound. -/
theorem C9_abstract_truncation_counterexample :
    processedData [longBill] "t" = [mkProcessedBill longBill "t"] ∧
    500 < (mkProcessedBill longBill "t").abstract.length := by
  constructor
  · have hai : is_ai_related longBill.title (firstAbstract longBill) = true := by decide
    have hk : ([] : List String).contains (billKey longBill) = false := rfl
    simp [processedData, processLoop, hai, hk, sortByLe, insertLe]
  · decide

/-- C9 amended: every processed bill stores as Abstract the truncation
of its source record's first abstract; abstracts of at most 500
characters are stored unchanged, longer ones are cut to their first
500 characters and suffixed with three dots, giving exactly 503
characters, so the stored Abstract is bounded by 503 characters — not
by 500. -/
theorem C9_abstract_truncation_amended :
    (∀ (bills : List RawBill) (now : String) (pb : ProcessedBill),
      pb ∈ processedData bills now →
      ∃ b ∈ bills, pb.abstract = truncAbstract (firstAbstract b)) ∧
    (∀ a : String, a.length ≤ 500 → truncAbstract a = a) ∧
    (∀ a : String, 500 < a.length →
      truncAbstract a = String.mk (a.toList.take 500) ++ "..." ∧
      (truncAbstract a).length = 503) ∧
    (∀ a : String, (truncAbstract a).length ≤ 503) := by
  have hlen : ∀ a : String, 500 < a.length →
      (String.mk (a.toList.take 500) ++ "...").length = 503 := by
    intro a ha
    rw [String.length_append]
    have h1 : (String.mk (a.toList.take 500)).length = 500 := by
      show (a.toList.take 500).length = 500
      rw [List.length_take]
      have h2 : a.toList.length = a.length := rfl
      omega
    rw [h1]
    rfl
  refine ⟨?_, ?_, ?_, ?_⟩
  · intro bills now pb hpb
    unfold processedData at hpb
    rw [mem_sortByLe] at hpb
    obtain ⟨b, hb, rfl⟩ := mem_processLoop now bills [] pb hpb
    exact ⟨b, hb, rfl⟩
  · intro a ha
    unfold truncAbstract
    rw [if_neg (by omega)]
  · intro a ha
    unfold truncAbstract
    rw [if_pos ha]
    exact ⟨rfl, hlen a ha⟩
  · intro a
    unfold truncAbstract
    by_cases ha : 500 < a.length
    · rw [if_pos ha, hlen a ha]
    · rw [if_neg ha]
      omega

set_option maxRecDepth 100000 in
/-- C9 witness: the amended bounds at concrete abstracts — a short
abstract stored unchanged, the 501-character abstract stored as 503
characters. -/
theorem C9_abstract_truncation_witness :
    truncAbstract "short" = "short" ∧
    (truncAbstract longAbstract).length = 503 :=
  ⟨C9_abstract_truncation_amended.2.1 "short" (by decide),
   (C9_abstract_truncation_amended.2.2.1 longAbstract (by
      show 500 < (List.replicate 501 'a').length
      simp)).2⟩

